import Mathlib

/-!
Verification of the triangle rasterizer of `src/triangle.rs`.

Modelling conventions:
* `u32` and `usize` values are modelled as `Nat`.
* `f32` arithmetic is modelled exactly over `ℚ`; all float inputs in this
  code are casts of small machine integers, and the claims are about the
  algorithm structure, so the idealized exact semantics is used.
  Division by zero yields `0` in `ℚ`; the only place the source can divide
  by zero is `distance_square_point_to_segment` on a degenerate segment,
  where both the exact model and the float code return the distance to the
  (coincident) endpoints, see `distance_square_eq_segDistSq`.
* Rust slices indexed at `0`, `1`, `2` are modelled by an explicit triple
  `Tri`; the partiality of slice indexing and of the `unwrap`s in
  `bounding_box` is modelled separately by `Option`-valued functions over
  `List` (`triOfSlice`, `bounding_boxSlice`, ...), related to the total
  versions for slices of length ≥ 3.
* The `line`, `utils` and `color` modules of the repository are not part of
  the sources under verification; the horizontal line run and the pixel
  index helper used by `triangle.rs` are modelled from the spec (they carry
  a `Modelled from the spec:` doc comment).  A color is modelled as the
  packed word it contributes to the framebuffer.
* `buffer[i] = c` in Rust panics when `i` is out of bounds; the model makes
  the write `Option`-valued (`writeAt`), with `none` standing for the panic.
-/

/-- 2-component vector over the exact model of `f32` (cgmath `Vector2<f32>`). -/
structure Vec2 where
  x : ℚ
  y : ℚ
deriving DecidableEq

/-- 3-component vector over the exact model of `f32` (cgmath `Vector3<f32>`). -/
structure Vec3 where
  x : ℚ
  y : ℚ
  z : ℚ
deriving DecidableEq

/-- cgmath cross product of two `Vector3`. -/
def Vec3.cross (a b : Vec3) : Vec3 :=
  ⟨a.y * b.z - a.z * b.y, a.z * b.x - a.x * b.z, a.x * b.y - a.y * b.x⟩

/-- The vector `u` computed by `barycentric`:
`(tri2.x−tri0.x, tri1.x−tri0.x, tri0.x−p.x) × (tri2.y−tri0.y, tri1.y−tri0.y, tri0.y−p.y)`. -/
def baryU (point : Vec2) (tri0 tri1 tri2 : Vec3) : Vec3 :=
  Vec3.cross ⟨tri2.x - tri0.x, tri1.x - tri0.x, tri0.x - point.x⟩
    ⟨tri2.y - tri0.y, tri1.y - tri0.y, tri0.y - point.y⟩

/-- `triangle::barycentric` from `src/triangle.rs` (slice accesses `tri[0..2]`
made explicit arguments; see `barycentricSlice` for the partial slice form). -/
def barycentric (point : Vec2) (tri0 tri1 tri2 : Vec3) : Option Vec3 :=
  let u : Vec3 := baryU point tri0 tri1 tri2
  if |u.z| < 1 then
    none
  else
    let result : Vec3 := ⟨1 - (u.x + u.y) / u.z, u.y / u.z, u.x / u.z⟩
    if result.x < 0 ∨ result.y < 0 ∨ result.z < 0 then none else some result

/-- A triangle given as three integer screen-space vertices
(`&[Vector2<u32>]` of length 3, indexed at 0, 1, 2). -/
abbrev Tri := (ℕ × ℕ) × (ℕ × ℕ) × (ℕ × ℕ)

/-- `triangle::bounding_box` for a slice of exactly three vertices: the
iterator `min`/`max` fold over `[p0, p1, p2]`.  Returns
`(min_x, min_y, max_x, max_y)`. -/
def bounding_box (positions : Tri) : ℕ × ℕ × ℕ × ℕ :=
  let min_x := min (min positions.1.1 positions.2.1.1) positions.2.2.1
  let min_y := min (min positions.1.2 positions.2.1.2) positions.2.2.2
  let max_x := max (max positions.1.1 positions.2.1.1) positions.2.2.1
  let max_y := max (max positions.1.2 positions.2.1.2) positions.2.2.2
  (min_x, min_y, max_x, max_y)

/-- The cross-product vector `u` computed inside `naive_point_in_triangle`
for an integer triangle and integer pixel (all coordinates cast to the
exact `f32` model). -/
def triU (point : ℕ × ℕ) (triangle : Tri) : Vec3 :=
  let p0 : Vec2 := ⟨(triangle.1.1 : ℚ), (triangle.1.2 : ℚ)⟩
  let p1 : Vec2 := ⟨(triangle.2.1.1 : ℚ), (triangle.2.1.2 : ℚ)⟩
  let p2 : Vec2 := ⟨(triangle.2.2.1 : ℚ), (triangle.2.2.2 : ℚ)⟩
  let p : Vec2 := ⟨(point.1 : ℚ), (point.2 : ℚ)⟩
  let c0 : Vec3 := ⟨p2.x - p0.x, p1.x - p0.x, p0.x - p.x⟩
  let c1 : Vec3 := ⟨p2.y - p0.y, p1.y - p0.y, p0.y - p.y⟩
  Vec3.cross c0 c1

/-- `triangle::naive_point_in_triangle` from `src/triangle.rs`. -/
def naive_point_in_triangle (point : ℕ × ℕ) (triangle : Tri) : Bool :=
  let u : Vec3 := triU point triangle
  if |u.z| < 1 then
    false
  else
    let r : Vec3 := ⟨1 - (u.x + u.y) / u.z, u.y / u.z, u.x / u.z⟩
    decide (r.x > 0) && decide (r.y > 0) && decide (r.z > 0)

/-- `EPSILON` from `src/triangle.rs` (`0.01`, exact in `f32`... modelled as
the rational `1/100`; `0.01f32` actually rounds to a nearby dyadic, but the
claims never compare quantities close enough for that to matter and every
comparison against it in the development is between exact rationals). -/
def EPSILON : ℚ := 1 / 100

/-- `EPSILON_SQUARE` from `src/triangle.rs`. -/
def EPSILON_SQUARE : ℚ := EPSILON * EPSILON

/-- `triangle::point_in_triangle_bounding_box` from `src/triangle.rs`. -/
def point_in_triangle_bounding_box
    (x1 y1 x2 y2 x3 y3 : ℚ) (point : ℚ × ℚ) : Bool :=
  let x := point.1
  let y := point.2
  let x_min : ℚ := min x1 (min x2 x3) - EPSILON
  let x_max : ℚ := max x1 (max x2 x3) + EPSILON
  let y_min : ℚ := min y1 (min y2 y3) - EPSILON
  let y_max : ℚ := max y1 (max y2 y3) + EPSILON
  if x < x_min ∨ x_max < x ∨ y < y_min ∨ y_max < y then false else true

/-- `triangle::distance_square_point_to_segment` from `src/triangle.rs`. -/
def distance_square_point_to_segment (x1 y1 x2 y2 x y : ℚ) : ℚ :=
  let p1_p2_square_length : ℚ := (x2 - x1) * (x2 - x1) + (y2 - y1) * (y2 - y1)
  let dot_product : ℚ :=
    ((x - x1) * (x2 - x1) + (y - y1) * (y2 - y1)) / p1_p2_square_length
  if dot_product < 0 then
    (x - x1) * (x - x1) + (y - y1) * (y - y1)
  else if dot_product ≤ 1 then
    let p_p1_square_length : ℚ := (x1 - x) * (x1 - x) + (y1 - y) * (y1 - y)
    p_p1_square_length - dot_product * dot_product * p1_p2_square_length
  else
    (x - x2) * (x - x2) + (y - y2) * (y - y2)

/-- `triangle::point_in_triangle` from `src/triangle.rs`. -/
def point_in_triangle (point : ℕ × ℕ) (triangle : Tri) : Bool :=
  let x1 : ℚ := (triangle.1.1 : ℚ)
  let y1 : ℚ := (triangle.1.2 : ℚ)
  let x2 : ℚ := (triangle.2.1.1 : ℚ)
  let y2 : ℚ := (triangle.2.1.2 : ℚ)
  let x3 : ℚ := (triangle.2.2.1 : ℚ)
  let y3 : ℚ := (triangle.2.2.2 : ℚ)
  let x : ℚ := (point.1 : ℚ)
  let y : ℚ := (point.2 : ℚ)
  if !point_in_triangle_bounding_box x1 y1 x2 y2 x3 y3 (x, y) then
    false
  else if naive_point_in_triangle point triangle then
    true
  else if distance_square_point_to_segment x1 y1 x2 y2 x y ≤ EPSILON_SQUARE then
    true
  else if distance_square_point_to_segment x2 y2 x3 y3 x y ≤ EPSILON_SQUARE then
    true
  else if distance_square_point_to_segment x3 y3 x1 y1 x y ≤ EPSILON_SQUARE then
    true
  else
    false

/-- Modelled from the spec: `utils::xy(x, y, width) = y * width + x`, the pixel
index helper of the repository's `utils` module (not among the sources under
verification; the spec gives the formula in §4.6). -/
def xy (x y width : ℕ) : ℕ :=
  y * width + x

/-- Modelled from the spec: the horizontal run of the repository's
`line::LineIterator` (the `line` module is not among the sources under
verification).  Per spec §4.1 the line producer, given endpoints
`(x0, y) .. (x1, y)` on one scanline, yields exactly the pixels
`(x0, y), (x0+1, y), ..., (x1, y)`, both endpoints included.
`triangle.rs` only ever builds horizontal lines, from `bb_min_x ≤ bb_max_x`. -/
def lineRow (x0 x1 y : ℕ) : List (ℕ × ℕ) :=
  (List.range (x1 - x0 + 1)).map (fun i => (x0 + i, y))

/-- The covered pixels of one scanline: the horizontal line run filtered by
`point_in_triangle`, exactly the loop body shared by `triangle::draw` and
`TriangleIterator::next`. -/
def coveredRow (triangle : Tri) (x0 x1 y : ℕ) : List (ℕ × ℕ) :=
  (lineRow x0 x1 y).filter (fun p => point_in_triangle p triangle)

/-- The scanlines `triangle::draw` walks, with their covered pixels: the loop
`for y in bb_min_y..(bb_max_y)` — the upper bound is exclusive, as in the
Rust range. -/
def drawRows (triangle : Tri) : List (List (ℕ × ℕ)) :=
  let bb := bounding_box triangle
  (List.range (bb.2.2.2 - bb.2.1)).map
    (fun k => coveredRow triangle bb.1 bb.2.2.1 (bb.2.1 + k))

/-- All pixels `triangle::draw` writes, in write order. -/
def drawPixels (triangle : Tri) : List (ℕ × ℕ) :=
  (drawRows triangle).flatten

/-- The Rust indexed store `buffer[idx] = c`: `some` of the updated buffer
when `idx` is in bounds, `none` for the out-of-bounds panic. -/
def writeAt (buffer : List ℕ) (idx : ℕ) (c : ℕ) : Option (List ℕ) :=
  if idx < buffer.length then some (buffer.set idx c) else none

/-- Writing a run of pixels into the buffer at `xy x y width`, stopping with
`none` at the first out-of-bounds panic. -/
def writeRun (buffer : List ℕ) (width c : ℕ) : List (ℕ × ℕ) → Option (List ℕ)
  | [] => some buffer
  | p :: ps =>
    match writeAt buffer (xy p.1 p.2 width) c with
    | none => none
    | some b2 => writeRun b2 width c ps

/-- `triangle::draw` from `src/triangle.rs`: for each scanline of
`drawRows` write every covered pixel (the word `color.bgra()` is the
abstract color `c`).  The result is `none` when some write indexes past the
end of the buffer (a Rust panic). -/
def draw (triangle : Tri) (c : ℕ) (buffer : List ℕ) (buffer_width : ℕ) :
    Option (List ℕ) :=
  writeRun buffer buffer_width c (drawPixels triangle)

/-- The state of `triangle::TriangleIterator` from `src/triangle.rs`. -/
structure TriangleIterator where
  bb_min_x : ℕ
  bb_max_x : ℕ
  bb_max_y : ℕ
  triangle : Tri
  y : ℕ
deriving DecidableEq

/-- `TriangleIterator::new` from `src/triangle.rs`. -/
def TriangleIterator.new (triangle : Tri) : TriangleIterator :=
  let bb := bounding_box triangle
  { bb_min_x := bb.1
    bb_max_x := bb.2.2.1
    bb_max_y := bb.2.2.2
    triangle := triangle
    y := bb.2.1 }

/-- `<TriangleIterator as Iterator>::next` from `src/triangle.rs`: `none`
once `y` has passed `bb_max_y`; otherwise `y` is incremented first and the
covered pixels of the new `y` are yielded. -/
def TriangleIterator.next (s : TriangleIterator) :
    Option (List (ℕ × ℕ) × TriangleIterator) :=
  if s.bb_max_y < s.y then
    none
  else
    let s2 : TriangleIterator := { s with y := s.y + 1 }
    some (coveredRow s.triangle s.bb_min_x s.bb_max_x s2.y, s2)

/-- Driving `TriangleIterator` to exhaustion, collecting every yielded row
(the `for line in triangle_iterator` loops of the repository's tests). -/
def TriangleIterator.run (s : TriangleIterator) : List (List (ℕ × ℕ)) :=
  if _h : s.bb_max_y < s.y then
    []
  else
    coveredRow s.triangle s.bb_min_x s.bb_max_x (s.y + 1) ::
      TriangleIterator.run { s with y := s.y + 1 }
termination_by s.bb_max_y + 1 - s.y

/-- `run` is exactly iterated `next`. -/
theorem TriangleIterator.run_eq_next (s : TriangleIterator) :
    s.run = match s.next with
      | none => []
      | some (row, s2) => row :: s2.run := by
  rw [TriangleIterator.run, TriangleIterator.next]
  split <;> simp

/-- The union (in yield order) of all rows produced by the lazy rasterizer. -/
def triangleIterPixels (triangle : Tri) : List (ℕ × ℕ) :=
  (TriangleIterator.new triangle).run.flatten

/-- The three barycentric weights `(1 − (u_x+u_y)/u_z, u_y/u_z, u_x/u_z)`
computed (in the exact model) by `naive_point_in_triangle` and by the spec. -/
def weights (point : ℕ × ℕ) (triangle : Tri) : ℚ × ℚ × ℚ :=
  let u : Vec3 := triU point triangle
  (1 - (u.x + u.y) / u.z, u.y / u.z, u.x / u.z)

/-- Twice the signed area of the triangle, an integer; `(triU p t).z` is its
cast, for every query point. -/
def doubleSignedArea (t : Tri) : ℤ :=
  ((t.2.2.1 : ℤ) - (t.1.1 : ℤ)) * ((t.2.1.2 : ℤ) - (t.1.2 : ℤ)) -
    ((t.2.1.1 : ℤ) - (t.1.1 : ℤ)) * ((t.2.2.2 : ℤ) - (t.1.2 : ℤ))

theorem triU_z_eq (p : ℕ × ℕ) (t : Tri) :
    (triU p t).z = ((doubleSignedArea t : ℤ) : ℚ) := by
  simp only [triU, Vec3.cross, doubleSignedArea]
  push_cast
  ring

/-- For integer vertices, a nonzero `u_z` is automatically at least `1` in
absolute value, so the `|u_z| < 1` degeneracy test is exactly `u_z = 0`. -/
theorem one_le_abs_triU_z (p : ℕ × ℕ) (t : Tri) (hz : (triU p t).z ≠ 0) :
    1 ≤ |(triU p t).z| := by
  rw [triU_z_eq] at hz ⊢
  have h0 : doubleSignedArea t ≠ 0 := by exact_mod_cast hz
  have h1 : (1 : ℤ) ≤ |doubleSignedArea t| := Int.one_le_abs h0
  calc (1 : ℚ) = ((1 : ℤ) : ℚ) := by norm_num
    _ ≤ ((|doubleSignedArea t| : ℤ) : ℚ) := by exact_mod_cast h1
    _ = |((doubleSignedArea t : ℤ) : ℚ)| := by push_cast; ring

theorem naive_eq_true_iff (p : ℕ × ℕ) (t : Tri) :
    naive_point_in_triangle p t = true ↔
      1 ≤ |(triU p t).z| ∧ 0 < (weights p t).1 ∧ 0 < (weights p t).2.1 ∧
        0 < (weights p t).2.2 := by
  simp only [naive_point_in_triangle, weights]
  split
  · rename_i h
    simp only [Bool.false_eq_true, false_iff]
    intro hcon
    exact absurd hcon.1 (by linarith)
  · rename_i h
    push_neg at h
    simp only [Bool.and_eq_true, decide_eq_true_eq, gt_iff_lt]
    constructor
    · rintro ⟨⟨hx, hy⟩, hzc⟩
      exact ⟨h, hx, hy, hzc⟩
    · rintro ⟨_, hx, hy, hzc⟩
      exact ⟨⟨hx, hy⟩, hzc⟩

/-- Modelled from the spec (§4.2, edge-tolerance rescue): the squared
distance from `(x, y)` to the edge `(x1,y1)–(x2,y2)` treated as a clamped
segment — the orthogonal-projection parameter is clamped to `[0, 1]` and the
squared distance to the resulting nearest point of the segment is taken. -/
def segDistSq (x1 y1 x2 y2 x y : ℚ) : ℚ :=
  let len : ℚ := (x2 - x1) * (x2 - x1) + (y2 - y1) * (y2 - y1)
  let t : ℚ := max 0 (min 1 (((x - x1) * (x2 - x1) + (y - y1) * (y2 - y1)) / len))
  let cx : ℚ := x1 + t * (x2 - x1)
  let cy : ℚ := y1 + t * (y2 - y1)
  (x - cx) * (x - cx) + (y - cy) * (y - cy)

/-- The branchy distance computation of the source equals the clamped-segment
distance of the spec (also on a degenerate segment, where both give the
squared distance to the coincident endpoints). -/
theorem distance_square_eq_segDistSq (x1 y1 x2 y2 x y : ℚ) :
    distance_square_point_to_segment x1 y1 x2 y2 x y = segDistSq x1 y1 x2 y2 x y := by
  simp only [distance_square_point_to_segment, segDistSq]
  set len : ℚ := (x2 - x1) * (x2 - x1) + (y2 - y1) * (y2 - y1) with hlen
  set dot : ℚ := ((x - x1) * (x2 - x1) + (y - y1) * (y2 - y1)) / len with hdot
  by_cases h0 : len = 0
  · have hx : x2 - x1 = 0 := by nlinarith [sq_nonneg (x2 - x1), sq_nonneg (y2 - y1)]
    have hy : y2 - y1 = 0 := by nlinarith [sq_nonneg (x2 - x1), sq_nonneg (y2 - y1)]
    have hd : dot = 0 := by rw [hdot, h0, div_zero]
    rw [hd]
    norm_num
    nlinarith [hx, hy]
  · have hmul : dot * len = (x - x1) * (x2 - x1) + (y - y1) * (y2 - y1) := by
      rw [hdot, div_mul_cancel₀ _ h0]
    by_cases h1 : dot < 0
    · rw [if_pos h1, min_eq_right (by linarith : dot ≤ 1), max_eq_left (by linarith : dot ≤ 0)]
      ring
    · push_neg at h1
      by_cases h2 : dot ≤ 1
      · rw [if_neg (by linarith), if_pos h2, min_eq_right h2, max_eq_right h1]
        nlinarith [hmul]
      · push_neg at h2
        rw [if_neg (by linarith), if_neg (by linarith), min_eq_left h2.le,
          max_eq_right (by norm_num : (0:ℚ) ≤ 1)]
        ring

/-- Modelled from the spec (§4.2 step 3, first bullet): the pixel lies inside
the triangle's bounding box expanded by `ε = 0.01` on every side. -/
def inExpandedBox (t : Tri) (p : ℕ × ℕ) : Prop :=
  min (t.1.1 : ℚ) (min (t.2.1.1 : ℚ) (t.2.2.1 : ℚ)) - EPSILON ≤ (p.1 : ℚ) ∧
  (p.1 : ℚ) ≤ max (t.1.1 : ℚ) (max (t.2.1.1 : ℚ) (t.2.2.1 : ℚ)) + EPSILON ∧
  min (t.1.2 : ℚ) (min (t.2.1.2 : ℚ) (t.2.2.2 : ℚ)) - EPSILON ≤ (p.2 : ℚ) ∧
  (p.2 : ℚ) ≤ max (t.1.2 : ℚ) (max (t.2.1.2 : ℚ) (t.2.2.2 : ℚ)) + EPSILON

instance (t : Tri) (p : ℕ × ℕ) : Decidable (inExpandedBox t p) := by
  unfold inExpandedBox
  exact inferInstance

/-- Modelled from the spec (§4.2 step 3, second bullet): `|u_z| ≥ 1` and all
three barycentric weights strictly positive. -/
def baryPositive (p : ℕ × ℕ) (t : Tri) : Prop :=
  1 ≤ |(triU p t).z| ∧ 0 < (weights p t).1 ∧ 0 < (weights p t).2.1 ∧
    0 < (weights p t).2.2

instance (p : ℕ × ℕ) (t : Tri) : Decidable (baryPositive p t) := by
  unfold baryPositive
  exact inferInstance

/-- Modelled from the spec (§4.2 step 3, third bullet): the squared distance
from the pixel to at least one of the three edges, as clamped segments, is
at most `ε²`. -/
def edgeRescue (p : ℕ × ℕ) (t : Tri) : Prop :=
  segDistSq (t.1.1 : ℚ) (t.1.2 : ℚ) (t.2.1.1 : ℚ) (t.2.1.2 : ℚ) (p.1 : ℚ) (p.2 : ℚ) ≤
      EPSILON_SQUARE ∨
  segDistSq (t.2.1.1 : ℚ) (t.2.1.2 : ℚ) (t.2.2.1 : ℚ) (t.2.2.2 : ℚ) (p.1 : ℚ) (p.2 : ℚ) ≤
      EPSILON_SQUARE ∨
  segDistSq (t.2.2.1 : ℚ) (t.2.2.2 : ℚ) (t.1.1 : ℚ) (t.1.2 : ℚ) (p.1 : ℚ) (p.2 : ℚ) ≤
      EPSILON_SQUARE

instance (p : ℕ × ℕ) (t : Tri) : Decidable (edgeRescue p t) := by
  unfold edgeRescue
  exact inferInstance

theorem bbox_eq_true_iff (x1 y1 x2 y2 x3 y3 px py : ℚ) :
    point_in_triangle_bounding_box x1 y1 x2 y2 x3 y3 (px, py) = true ↔
      (min x1 (min x2 x3) - EPSILON ≤ px ∧ px ≤ max x1 (max x2 x3) + EPSILON ∧
       min y1 (min y2 y3) - EPSILON ≤ py ∧ py ≤ max y1 (max y2 y3) + EPSILON) := by
  simp only [point_in_triangle_bounding_box]
  split
  · rename_i h
    simp only [Bool.false_eq_true, false_iff]
    intro hc
    obtain ⟨h1, h2, h3, h4⟩ := hc
    rcases h with h | h | h | h <;> linarith
  · rename_i h
    push_neg at h
    simp only [true_iff]
    exact h

/-- **C4**: `point_in_triangle` returns true iff the pixel lies inside the
triangle's bounding box expanded by `ε = 0.01` and either (a) `|u_z| ≥ 1`
and all three barycentric weights `(1 − (u_x+u_y)/u_z, u_y/u_z, u_x/u_z)`
are strictly positive, or (b) the squared distance from the pixel to at
least one of the three triangle edges, treated as clamped segments, is
`≤ ε²`; in particular when `|u_z| < 1` the barycentric test reports not
covered but the edge-distance rescue is still attempted. -/
theorem point_in_triangle_iff_spec (p : ℕ × ℕ) (t : Tri) :
    (point_in_triangle p t = true ↔
      inExpandedBox t p ∧ (baryPositive p t ∨ edgeRescue p t)) ∧
    (|(triU p t).z| < 1 →
      (point_in_triangle p t = true ↔ inExpandedBox t p ∧ edgeRescue p t)) := by
  have hbB : (point_in_triangle_bounding_box (t.1.1 : ℚ) (t.1.2 : ℚ) (t.2.1.1 : ℚ)
      (t.2.1.2 : ℚ) (t.2.2.1 : ℚ) (t.2.2.2 : ℚ) ((p.1 : ℚ), (p.2 : ℚ)) = true) ↔
      inExpandedBox t p := bbox_eq_true_iff _ _ _ _ _ _ _ _
  have hnaive : naive_point_in_triangle p t = true ↔ baryPositive p t :=
    naive_eq_true_iff p t
  have key : point_in_triangle p t = true ↔
      inExpandedBox t p ∧ (baryPositive p t ∨ edgeRescue p t) := by
    simp only [point_in_triangle, distance_square_eq_segDistSq]
    cases hbb : point_in_triangle_bounding_box (t.1.1 : ℚ) (t.1.2 : ℚ) (t.2.1.1 : ℚ)
        (t.2.1.2 : ℚ) (t.2.2.1 : ℚ) (t.2.2.2 : ℚ) ((p.1 : ℚ), (p.2 : ℚ)) with
    | false =>
      rw [hbb] at hbB
      simp only [Bool.false_eq_true, false_iff] at hbB
      simp [hbb, hbB]
    | true =>
      rw [hbb] at hbB
      simp only [true_iff] at hbB
      cases hn : naive_point_in_triangle p t with
      | true =>
        rw [hn] at hnaive
        simp only [true_iff] at hnaive
        simp [hbb, hn, hbB, hnaive]
      | false =>
        rw [hn] at hnaive
        simp only [Bool.false_eq_true, false_iff] at hnaive
        simp only [hbb, Bool.not_true, Bool.false_eq_true, if_false, hn, if_true]
        split_ifs with h1 h2 h3
        · simp [edgeRescue, hbB, h1]
        · simp [edgeRescue, hbB, h2]
        · simp [edgeRescue, hbB, h3]
        · simp only [Bool.false_eq_true, false_iff]
          rintro ⟨-, hor⟩
          rcases hor with hb | he
          · exact hnaive hb
          · rcases he with he | he | he
            · exact h1 he
            · exact h2 he
            · exact h3 he
  refine ⟨key, fun hdeg => ?_⟩
  rw [key]
  constructor
  · rintro ⟨hb, hbe⟩
    rcases hbe with hbary | he
    · exact absurd hbary.1 (by linarith)
    · exact ⟨hb, he⟩
  · rintro ⟨hb, he⟩
    exact ⟨hb, Or.inr he⟩

/-- Witness for the degenerate-fallthrough part of
`point_in_triangle_iff_spec`: on the collinear triangle
`(0,0), (1,1), (2,2)` (so `u_z = 0` and `|u_z| < 1`) at the pixel `(1, 1)`,
which is accepted, and is indeed inside the expanded box and within `ε` of
an edge. -/
theorem point_in_triangle_iff_spec_witness :
    (point_in_triangle (1, 1) ((0, 0), (1, 1), (2, 2)) = true ↔
      inExpandedBox ((0, 0), (1, 1), (2, 2)) (1, 1) ∧
        edgeRescue (1, 1) ((0, 0), (1, 1), (2, 2))) ∧
    point_in_triangle (1, 1) ((0, 0), (1, 1), (2, 2)) = true :=
  ⟨(point_in_triangle_iff_spec (1, 1) ((0, 0), (1, 1), (2, 2))).2
      (by with_unfolding_all decide),
    by with_unfolding_all decide⟩

theorem convex_min_le {w0 w1 w2 a b c v : ℚ} (h0 : 0 < w0) (h1 : 0 < w1)
    (h2 : 0 < w2) (hsum : w0 + w1 + w2 = 1) (hv : w0 * a + w1 * b + w2 * c = v) :
    min a (min b c) ≤ v ∧ v ≤ max a (max b c) := by
  set m : ℚ := min a (min b c) with hm
  set M : ℚ := max a (max b c) with hM
  have hma : m ≤ a := min_le_left _ _
  have hmb : m ≤ b := le_trans (min_le_right _ _) (min_le_left _ _)
  have hmc : m ≤ c := le_trans (min_le_right _ _) (min_le_right _ _)
  have hMa : a ≤ M := le_max_left _ _
  have hMb : b ≤ M := le_trans (le_max_left _ _) (le_max_right _ _)
  have hMc : c ≤ M := le_trans (le_max_right _ _) (le_max_right _ _)
  have em : w0 * m + w1 * m + w2 * m = m := by linear_combination m * hsum
  have eM : w0 * M + w1 * M + w2 * M = M := by linear_combination M * hsum
  have pa0 : w0 * m ≤ w0 * a := mul_le_mul_of_nonneg_left hma h0.le
  have pb0 : w1 * m ≤ w1 * b := mul_le_mul_of_nonneg_left hmb h1.le
  have pc0 : w2 * m ≤ w2 * c := mul_le_mul_of_nonneg_left hmc h2.le
  have pa1 : w0 * a ≤ w0 * M := mul_le_mul_of_nonneg_left hMa h0.le
  have pb1 : w1 * b ≤ w1 * M := mul_le_mul_of_nonneg_left hMb h1.le
  have pc1 : w2 * c ≤ w2 * M := mul_le_mul_of_nonneg_left hMc h2.le
  constructor <;> linarith

theorem bbox_true_of_bounds {x1 y1 x2 y2 x3 y3 px py : ℚ}
    (hx1 : min x1 (min x2 x3) ≤ px) (hx2 : px ≤ max x1 (max x2 x3))
    (hy1 : min y1 (min y2 y3) ≤ py) (hy2 : py ≤ max y1 (max y2 y3)) :
    point_in_triangle_bounding_box x1 y1 x2 y2 x3 y3 (px, py) = true := by
  rw [bbox_eq_true_iff]
  have he : (0 : ℚ) < EPSILON := by norm_num [EPSILON]
  exact ⟨by linarith, by linarith, by linarith, by linarith⟩

/-- The weights sum to 1 and express the query pixel as an affine
combination of the three vertices (the defining property of barycentric
coordinates, mechanically checkable from the cross-product formulas). -/
theorem weights_spec (p : ℕ × ℕ) (t : Tri) (hz : (triU p t).z ≠ 0) :
    (weights p t).1 + (weights p t).2.1 + (weights p t).2.2 = 1 ∧
    (weights p t).1 * (t.1.1 : ℚ) + (weights p t).2.1 * (t.2.1.1 : ℚ) +
      (weights p t).2.2 * (t.2.2.1 : ℚ) = (p.1 : ℚ) ∧
    (weights p t).1 * (t.1.2 : ℚ) + (weights p t).2.1 * (t.2.1.2 : ℚ) +
      (weights p t).2.2 * (t.2.2.2 : ℚ) = (p.2 : ℚ) := by
  simp only [weights, triU, Vec3.cross] at hz ⊢
  refine ⟨?_, ?_, ?_⟩ <;> field_simp <;> ring

/-- A pixel with strictly positive barycentric weights passes both the
expanded-bounding-box test and the naive barycentric test, so it is
covered. -/
theorem inside_covered (p : ℕ × ℕ) (t : Tri) (hz : (triU p t).z ≠ 0)
    (h0 : 0 < (weights p t).1) (h1 : 0 < (weights p t).2.1)
    (h2 : 0 < (weights p t).2.2) :
    point_in_triangle p t = true := by
  obtain ⟨hsum, hx, hy⟩ := weights_spec p t hz
  have hxb := convex_min_le h0 h1 h2 hsum hx
  have hyb := convex_min_le h0 h1 h2 hsum hy
  have hbox := bbox_true_of_bounds hxb.1 hxb.2 hyb.1 hyb.2
  have hnaive : naive_point_in_triangle p t = true :=
    (naive_eq_true_iff p t).mpr ⟨one_le_abs_triU_z p t hz, h0, h1, h2⟩
  simp [point_in_triangle, hbox, hnaive]

/-- `inside_covered` with the cross-product vector given componentwise. -/
theorem inside_covered_of_u (p : ℕ × ℕ) (t : Tri) (ux uy uz : ℚ)
    (hxeq : (triU p t).x = ux) (hyeq : (triU p t).y = uy)
    (hzeq : (triU p t).z = uz) (hz : uz ≠ 0) (h0 : 0 < 1 - (ux + uy) / uz)
    (h1 : 0 < uy / uz) (h2 : 0 < ux / uz) :
    point_in_triangle p t = true := by
  apply inside_covered p t
  · rw [hzeq]; exact hz
  · simp only [weights]; rw [hxeq, hyeq, hzeq]; exact h0
  · simp only [weights]; rw [hyeq, hzeq]; exact h1
  · simp only [weights]; rw [hxeq, hzeq]; exact h2

theorem triU_acb (p a b c : ℕ × ℕ) :
    triU p (a, c, b) =
      ⟨-(triU p (a, b, c)).y, -(triU p (a, b, c)).x, -(triU p (a, b, c)).z⟩ := by
  simp only [triU, Vec3.cross, Vec3.mk.injEq]
  refine ⟨by ring, by ring, by ring⟩

theorem triU_bac (p a b c : ℕ × ℕ) :
    triU p (b, a, c) =
      ⟨-(triU p (a, b, c)).x,
        (triU p (a, b, c)).x + (triU p (a, b, c)).y - (triU p (a, b, c)).z,
        -(triU p (a, b, c)).z⟩ := by
  simp only [triU, Vec3.cross, Vec3.mk.injEq]
  refine ⟨by ring, by ring, by ring⟩

theorem triU_bca (p a b c : ℕ × ℕ) :
    triU p (b, c, a) =
      ⟨(triU p (a, b, c)).z - (triU p (a, b, c)).x - (triU p (a, b, c)).y,
        (triU p (a, b, c)).x, (triU p (a, b, c)).z⟩ := by
  simp only [triU, Vec3.cross, Vec3.mk.injEq]
  refine ⟨by ring, by ring, by ring⟩

theorem triU_cab (p a b c : ℕ × ℕ) :
    triU p (c, a, b) =
      ⟨(triU p (a, b, c)).y,
        (triU p (a, b, c)).z - (triU p (a, b, c)).x - (triU p (a, b, c)).y,
        (triU p (a, b, c)).z⟩ := by
  simp only [triU, Vec3.cross, Vec3.mk.injEq]
  refine ⟨by ring, by ring, by ring⟩

theorem triU_cba (p a b c : ℕ × ℕ) :
    triU p (c, b, a) =
      ⟨(triU p (a, b, c)).x + (triU p (a, b, c)).y - (triU p (a, b, c)).z,
        -(triU p (a, b, c)).y, -(triU p (a, b, c)).z⟩ := by
  simp only [triU, Vec3.cross, Vec3.mk.injEq]
  refine ⟨by ring, by ring, by ring⟩

/-- **C5**: a pixel whose three barycentric weights all exceed `ε = 0.01` is
reported covered by `point_in_triangle`, and the same (true) answer is
returned for every permutation of the three vertices. -/
theorem strictly_inside_covered_all_orders (a b c p : ℕ × ℕ)
    (h0 : EPSILON < (weights p (a, b, c)).1)
    (h1 : EPSILON < (weights p (a, b, c)).2.1)
    (h2 : EPSILON < (weights p (a, b, c)).2.2) :
    point_in_triangle p (a, b, c) = true ∧
    point_in_triangle p (a, c, b) = true ∧
    point_in_triangle p (b, a, c) = true ∧
    point_in_triangle p (b, c, a) = true ∧
    point_in_triangle p (c, a, b) = true ∧
    point_in_triangle p (c, b, a) = true := by
  have heps : (0 : ℚ) < EPSILON := by norm_num [EPSILON]
  have hz : (triU p (a, b, c)).z ≠ 0 := by
    intro h
    have h1e : (weights p (a, b, c)).2.1 = 0 := by
      simp only [weights]
      rw [h, div_zero]
    rw [h1e] at h1
    exact absurd h1 (by linarith)
  have hzneg : -(triU p (a, b, c)).z ≠ 0 := neg_ne_zero.mpr hz
  have hw0 : 0 < 1 - ((triU p (a, b, c)).x + (triU p (a, b, c)).y) /
      (triU p (a, b, c)).z := by
    have h := h0
    simp only [weights] at h
    linarith
  have hw1 : 0 < (triU p (a, b, c)).y / (triU p (a, b, c)).z := by
    have h := h1
    simp only [weights] at h
    linarith
  have hw2 : 0 < (triU p (a, b, c)).x / (triU p (a, b, c)).z := by
    have h := h2
    simp only [weights] at h
    linarith
  refine ⟨inside_covered p (a, b, c) hz (lt_trans heps h0) (lt_trans heps h1)
    (lt_trans heps h2), ?_, ?_, ?_, ?_, ?_⟩
  · refine inside_covered_of_u p (a, c, b) (-(triU p (a, b, c)).y)
      (-(triU p (a, b, c)).x) (-(triU p (a, b, c)).z)
      (by rw [triU_acb]) (by rw [triU_acb]) (by rw [triU_acb]) hzneg ?_ ?_ ?_
    · rw [show (-(triU p (a, b, c)).y + -(triU p (a, b, c)).x) /
          -(triU p (a, b, c)).z =
          ((triU p (a, b, c)).x + (triU p (a, b, c)).y) / (triU p (a, b, c)).z
          from by field_simp <;> ring]
      exact hw0
    · rw [show -(triU p (a, b, c)).x / -(triU p (a, b, c)).z =
          (triU p (a, b, c)).x / (triU p (a, b, c)).z from neg_div_neg_eq _ _]
      exact hw2
    · rw [show -(triU p (a, b, c)).y / -(triU p (a, b, c)).z =
          (triU p (a, b, c)).y / (triU p (a, b, c)).z from neg_div_neg_eq _ _]
      exact hw1
  · refine inside_covered_of_u p (b, a, c) (-(triU p (a, b, c)).x)
      ((triU p (a, b, c)).x + (triU p (a, b, c)).y - (triU p (a, b, c)).z)
      (-(triU p (a, b, c)).z)
      (by rw [triU_bac]) (by rw [triU_bac]) (by rw [triU_bac]) hzneg ?_ ?_ ?_
    · rw [show 1 - (-(triU p (a, b, c)).x + ((triU p (a, b, c)).x +
          (triU p (a, b, c)).y - (triU p (a, b, c)).z)) / -(triU p (a, b, c)).z =
          (triU p (a, b, c)).y / (triU p (a, b, c)).z from by field_simp <;> ring]
      exact hw1
    · rw [show ((triU p (a, b, c)).x + (triU p (a, b, c)).y -
          (triU p (a, b, c)).z) / -(triU p (a, b, c)).z =
          1 - ((triU p (a, b, c)).x + (triU p (a, b, c)).y) /
            (triU p (a, b, c)).z from by field_simp <;> ring]
      exact hw0
    · rw [show -(triU p (a, b, c)).x / -(triU p (a, b, c)).z =
          (triU p (a, b, c)).x / (triU p (a, b, c)).z from neg_div_neg_eq _ _]
      exact hw2
  · refine inside_covered_of_u p (b, c, a)
      ((triU p (a, b, c)).z - (triU p (a, b, c)).x - (triU p (a, b, c)).y)
      ((triU p (a, b, c)).x) ((triU p (a, b, c)).z)
      (by rw [triU_bca]) (by rw [triU_bca]) (by rw [triU_bca]) hz ?_ ?_ ?_
    · rw [show 1 - (((triU p (a, b, c)).z - (triU p (a, b, c)).x -
          (triU p (a, b, c)).y) + (triU p (a, b, c)).x) / (triU p (a, b, c)).z =
          (triU p (a, b, c)).y / (triU p (a, b, c)).z from by field_simp <;> ring]
      exact hw1
    · exact hw2
    · rw [show ((triU p (a, b, c)).z - (triU p (a, b, c)).x -
          (triU p (a, b, c)).y) / (triU p (a, b, c)).z =
          1 - ((triU p (a, b, c)).x + (triU p (a, b, c)).y) /
            (triU p (a, b, c)).z from by field_simp <;> ring]
      exact hw0
  · refine inside_covered_of_u p (c, a, b) ((triU p (a, b, c)).y)
      ((triU p (a, b, c)).z - (triU p (a, b, c)).x - (triU p (a, b, c)).y)
      ((triU p (a, b, c)).z)
      (by rw [triU_cab]) (by rw [triU_cab]) (by rw [triU_cab]) hz ?_ ?_ ?_
    · rw [show 1 - ((triU p (a, b, c)).y + ((triU p (a, b, c)).z -
          (triU p (a, b, c)).x - (triU p (a, b, c)).y)) / (triU p (a, b, c)).z =
          (triU p (a, b, c)).x / (triU p (a, b, c)).z from by field_simp <;> ring]
      exact hw2
    · rw [show ((triU p (a, b, c)).z - (triU p (a, b, c)).x -
          (triU p (a, b, c)).y) / (triU p (a, b, c)).z =
          1 - ((triU p (a, b, c)).x + (triU p (a, b, c)).y) /
            (triU p (a, b, c)).z from by field_simp <;> ring]
      exact hw0
    · exact hw1
  · refine inside_covered_of_u p (c, b, a)
      ((triU p (a, b, c)).x + (triU p (a, b, c)).y - (triU p (a, b, c)).z)
      (-(triU p (a, b, c)).y) (-(triU p (a, b, c)).z)
      (by rw [triU_cba]) (by rw [triU_cba]) (by rw [triU_cba]) hzneg ?_ ?_ ?_
    · rw [show 1 - (((triU p (a, b, c)).x + (triU p (a, b, c)).y -
          (triU p (a, b, c)).z) + -(triU p (a, b, c)).y) / -(triU p (a, b, c)).z =
          (triU p (a, b, c)).x / (triU p (a, b, c)).z from by field_simp <;> ring]
      exact hw2
    · rw [show -(triU p (a, b, c)).y / -(triU p (a, b, c)).z =
          (triU p (a, b, c)).y / (triU p (a, b, c)).z from neg_div_neg_eq _ _]
      exact hw1
    · rw [show ((triU p (a, b, c)).x + (triU p (a, b, c)).y -
          (triU p (a, b, c)).z) / -(triU p (a, b, c)).z =
          1 - ((triU p (a, b, c)).x + (triU p (a, b, c)).y) /
            (triU p (a, b, c)).z from by field_simp <;> ring]
      exact hw0

/-- Witness for `strictly_inside_covered_all_orders`: the pixel `(1, 1)` has
weights `(1/4, 1/4, 1/2)` in the triangle `(0,0), (2,0), (1,2)`, all above
`ε`, and is covered in all six vertex orders. -/
theorem strictly_inside_covered_all_orders_witness :
    point_in_triangle (1, 1) ((0, 0), (2, 0), (1, 2)) = true ∧
    point_in_triangle (1, 1) ((0, 0), (1, 2), (2, 0)) = true ∧
    point_in_triangle (1, 1) ((2, 0), (0, 0), (1, 2)) = true ∧
    point_in_triangle (1, 1) ((2, 0), (1, 2), (0, 0)) = true ∧
    point_in_triangle (1, 1) ((1, 2), (0, 0), (2, 0)) = true ∧
    point_in_triangle (1, 1) ((1, 2), (2, 0), (0, 0)) = true :=
  strictly_inside_covered_all_orders (0, 0) (2, 0) (1, 2) (1, 1)
    (by with_unfolding_all decide) (by with_unfolding_all decide)
    (by with_unfolding_all decide)

/-- A covered pixel has passed the expanded-bounding-box test. -/
theorem covered_bbox_pass {p : ℕ × ℕ} {t : Tri}
    (h : point_in_triangle p t = true) :
    point_in_triangle_bounding_box (t.1.1 : ℚ) (t.1.2 : ℚ) (t.2.1.1 : ℚ)
      (t.2.1.2 : ℚ) (t.2.2.1 : ℚ) (t.2.2.2 : ℚ) ((p.1 : ℚ), (p.2 : ℚ)) = true := by
  cases hbb : point_in_triangle_bounding_box (t.1.1 : ℚ) (t.1.2 : ℚ) (t.2.1.1 : ℚ)
      (t.2.1.2 : ℚ) (t.2.2.1 : ℚ) (t.2.2.2 : ℚ) ((p.1 : ℚ), (p.2 : ℚ)) with
  | true => rfl
  | false => simp [point_in_triangle, hbb] at h

/-- A covered pixel lies in the integer bounding box, inclusive on both
ends: the expanded box only slackens each side by `ε = 0.01 < 1`, which an
integer pixel cannot exploit. -/
theorem covered_in_intbox {p : ℕ × ℕ} {t : Tri}
    (h : point_in_triangle p t = true) :
    (bounding_box t).1 ≤ p.1 ∧ p.1 ≤ (bounding_box t).2.2.1 ∧
    (bounding_box t).2.1 ≤ p.2 ∧ p.2 ≤ (bounding_box t).2.2.2 := by
  obtain ⟨h1, h2, h3, h4⟩ :=
    (bbox_eq_true_iff _ _ _ _ _ _ _ _).mp (covered_bbox_pass h)
  have heps : EPSILON = (1 : ℚ) / 100 := rfl
  have hminx : ((min (min t.1.1 t.2.1.1) t.2.2.1 : ℕ) : ℚ) =
      min (t.1.1 : ℚ) (min (t.2.1.1 : ℚ) (t.2.2.1 : ℚ)) := by
    push_cast [Nat.cast_min]
    rw [min_assoc]
  have hminy : ((min (min t.1.2 t.2.1.2) t.2.2.2 : ℕ) : ℚ) =
      min (t.1.2 : ℚ) (min (t.2.1.2 : ℚ) (t.2.2.2 : ℚ)) := by
    push_cast [Nat.cast_min]
    rw [min_assoc]
  have hmaxx : ((max (max t.1.1 t.2.1.1) t.2.2.1 : ℕ) : ℚ) =
      max (t.1.1 : ℚ) (max (t.2.1.1 : ℚ) (t.2.2.1 : ℚ)) := by
    push_cast [Nat.cast_max]
    rw [max_assoc]
  have hmaxy : ((max (max t.1.2 t.2.1.2) t.2.2.2 : ℕ) : ℚ) =
      max (t.1.2 : ℚ) (max (t.2.1.2 : ℚ) (t.2.2.2 : ℚ)) := by
    push_cast [Nat.cast_max]
    rw [max_assoc]
  simp only [bounding_box]
  refine ⟨?_, ?_, ?_, ?_⟩
  · have hq : ((min (min t.1.1 t.2.1.1) t.2.2.1 : ℕ) : ℚ) < ((p.1 + 1 : ℕ) : ℚ) := by
      rw [hminx]
      rw [heps] at h1
      push_cast
      linarith
    have hn := (Nat.cast_lt (α := ℚ)).mp hq
    omega
  · have hq : ((p.1 : ℕ) : ℚ) < ((max (max t.1.1 t.2.1.1) t.2.2.1 + 1 : ℕ) : ℚ) := by
      rw [heps] at h2
      push_cast [Nat.cast_max, max_assoc] at h2 ⊢
      linarith
    have hn := (Nat.cast_lt (α := ℚ)).mp hq
    omega
  · have hq : ((min (min t.1.2 t.2.1.2) t.2.2.2 : ℕ) : ℚ) < ((p.2 + 1 : ℕ) : ℚ) := by
      rw [hminy]
      rw [heps] at h3
      push_cast
      linarith
    have hn := (Nat.cast_lt (α := ℚ)).mp hq
    omega
  · have hq : ((p.2 : ℕ) : ℚ) < ((max (max t.1.2 t.2.1.2) t.2.2.2 + 1 : ℕ) : ℚ) := by
      rw [heps] at h4
      push_cast [Nat.cast_max, max_assoc] at h4 ⊢
      linarith
    have hn := (Nat.cast_lt (α := ℚ)).mp hq
    omega

/-- Closed form of the lazy iterator: starting at state `s` it yields one row
per remaining step, scanlines `s.y + 1, s.y + 2, ..., s.bb_max_y + 1`. -/
theorem TriangleIterator.run_closed (s : TriangleIterator) :
    s.run = (List.range (s.bb_max_y + 1 - s.y)).map
      (fun k => coveredRow s.triangle s.bb_min_x s.bb_max_x (s.y + 1 + k)) := by
  generalize hm : s.bb_max_y + 1 - s.y = n
  induction n generalizing s with
  | zero =>
    rw [TriangleIterator.run, dif_pos (by omega)]
    simp
  | succ n ih =>
    rw [TriangleIterator.run, dif_neg (by omega)]
    have h2 : ({ s with y := s.y + 1 } : TriangleIterator).bb_max_y + 1 -
        ({ s with y := s.y + 1 } : TriangleIterator).y = n := by
      simp only []
      omega
    rw [ih _ h2]
    rw [List.range_succ_eq_map]
    simp only [List.map_cons, List.map_map]
    congr 1
    apply List.map_congr_left
    intro k _
    simp only [Function.comp]
    congr 1
    omega

theorem mem_drawPixels_covered {t : Tri} {p : ℕ × ℕ} (h : p ∈ drawPixels t) :
    point_in_triangle p t = true := by
  simp only [drawPixels, drawRows, List.mem_flatten, List.mem_map] at h
  obtain ⟨row, ⟨k, _, rfl⟩, hp⟩ := h
  simp only [coveredRow, List.mem_filter] at hp
  exact hp.2

theorem mem_iterPixels_covered {t : Tri} {p : ℕ × ℕ}
    (h : p ∈ triangleIterPixels t) :
    point_in_triangle p t = true := by
  simp only [triangleIterPixels, TriangleIterator.run_closed,
    TriangleIterator.new, List.mem_flatten, List.mem_map] at h
  obtain ⟨row, ⟨k, _, rfl⟩, hp⟩ := h
  simp only [coveredRow, List.mem_filter] at hp
  exact hp.2

/-- **C6**: for a triangle of nonzero (twice-signed) area, every pixel
accepted by `point_in_triangle` — hence every pixel emitted by `draw` or by
the `TriangleIterator` — lies in the triangle's axis-aligned bounding box,
inclusive on both ends. -/
theorem covered_pixels_in_bounding_box (t : Tri) (p : ℕ × ℕ)
    (harea : doubleSignedArea t ≠ 0) :
    (point_in_triangle p t = true →
      (bounding_box t).1 ≤ p.1 ∧ p.1 ≤ (bounding_box t).2.2.1 ∧
      (bounding_box t).2.1 ≤ p.2 ∧ p.2 ≤ (bounding_box t).2.2.2) ∧
    (p ∈ drawPixels t →
      (bounding_box t).1 ≤ p.1 ∧ p.1 ≤ (bounding_box t).2.2.1 ∧
      (bounding_box t).2.1 ≤ p.2 ∧ p.2 ≤ (bounding_box t).2.2.2) ∧
    (p ∈ triangleIterPixels t →
      (bounding_box t).1 ≤ p.1 ∧ p.1 ≤ (bounding_box t).2.2.1 ∧
      (bounding_box t).2.1 ≤ p.2 ∧ p.2 ≤ (bounding_box t).2.2.2) :=
  ⟨fun h => covered_in_intbox h,
    fun h => covered_in_intbox (mem_drawPixels_covered h),
    fun h => covered_in_intbox (mem_iterPixels_covered h)⟩

/-- Witness for `covered_pixels_in_bounding_box`: the triangle
`(0,0), (0,4), (4,4)` has nonzero area; its covered pixel `(2, 2)` (on the
diagonal edge) lies inside the bounding box on all three routes. -/
theorem covered_pixels_in_bounding_box_witness :
    point_in_triangle (2, 2) ((0, 0), (0, 4), (4, 4)) = true ∧
    ((bounding_box ((0, 0), (0, 4), (4, 4))).1 ≤ 2 ∧ 2 ≤
      (bounding_box ((0, 0), (0, 4), (4, 4))).2.2.1 ∧
     (bounding_box ((0, 0), (0, 4), (4, 4))).2.1 ≤ 2 ∧ 2 ≤
      (bounding_box ((0, 0), (0, 4), (4, 4))).2.2.2) :=
  ⟨by with_unfolding_all decide,
    (covered_pixels_in_bounding_box ((0, 0), (0, 4), (4, 4)) (2, 2)
      (by with_unfolding_all decide)).1 (by with_unfolding_all decide)⟩

/-- **C7**: on the triangle `(245,391), (115,200), (306,438)`:
`(234,357)` is covered, `(236,277)` is not, and the vertex `(245,391)`
itself is covered — not by the (strict) barycentric test, which rejects it,
but through the edge-distance rescue (its distance to the first edge is 0). -/
theorem test_triangle_sample_points :
    point_in_triangle (234, 357) ((245, 391), (115, 200), (306, 438)) = true ∧
    point_in_triangle (236, 277) ((245, 391), (115, 200), (306, 438)) = false ∧
    point_in_triangle (245, 391) ((245, 391), (115, 200), (306, 438)) = true ∧
    naive_point_in_triangle (245, 391) ((245, 391), (115, 200), (306, 438)) = false ∧
    distance_square_point_to_segment 245 391 115 200 245 391 ≤ EPSILON_SQUARE := by
  with_unfolding_all decide

/-- **C1** (refuting evaluation): for the triangle `(0,0), (2,0), (1,2)`
(bounding box `y ∈ [0,2]`) the eager `draw` covers the pixels of scanlines
0 and 1 only, while the lazy iterator covers scanlines 1, 2 (and an empty
row 3); the two pixel sets differ: `(0,0)` is drawn but never yielded, and
`(1,2)` is yielded but never drawn. -/
theorem draw_vs_iterator_diverge :
    drawPixels ((0, 0), (2, 0), (1, 2)) = [(0, 0), (1, 0), (2, 0), (1, 1)] ∧
    triangleIterPixels ((0, 0), (2, 0), (1, 2)) = [(1, 1), (1, 2)] ∧
    (0, 0) ∈ drawPixels ((0, 0), (2, 0), (1, 2)) ∧
    (0, 0) ∉ triangleIterPixels ((0, 0), (2, 0), (1, 2)) ∧
    (1, 2) ∈ triangleIterPixels ((0, 0), (2, 0), (1, 2)) ∧
    (1, 2) ∉ drawPixels ((0, 0), (2, 0), (1, 2)) := by
  with_unfolding_all decide

/-- **C2** (refuting evaluation): the triangle `(0,0), (2,0), (1,2)` has
bounding box `(0, 0, 2, 2)`; its iterator yields exactly three rows, but
they are the covered pixels of scanlines 1, 2 and 3 — not of 0, 1 and 2:
the first yielded row is scanline `min_y + 1`, scanline `min_y = 0` (whose
covered pixels `(0,0), (1,0), (2,0)` are not empty) is never yielded, and an
extra row for scanline `max_y + 1 = 3` (always empty) is yielded last. -/
theorem iterator_rows_off_by_one :
    bounding_box ((0, 0), (2, 0), (1, 2)) = (0, 0, 2, 2) ∧
    (TriangleIterator.new ((0, 0), (2, 0), (1, 2))).run =
      [coveredRow ((0, 0), (2, 0), (1, 2)) 0 2 1,
       coveredRow ((0, 0), (2, 0), (1, 2)) 0 2 2,
       coveredRow ((0, 0), (2, 0), (1, 2)) 0 2 3] ∧
    (TriangleIterator.new ((0, 0), (2, 0), (1, 2))).run =
      [[(1, 1)], [(1, 2)], []] ∧
    coveredRow ((0, 0), (2, 0), (1, 2)) 0 2 0 = [(0, 0), (1, 0), (2, 0)] := by
  with_unfolding_all decide

/-- **C3** (refuting evaluation): `draw` never scans the bottom scanline
`max_y`: on the triangle `(0,0), (2,0), (1,2)` (bounding box `(0,0,2,2)`)
it walks two scanlines only (0 and 1), and the bottom-row pixel `(1,2)` —
the bottom vertex, which passes the coverage test — is not written. -/
theorem draw_misses_bottom_row :
    bounding_box ((0, 0), (2, 0), (1, 2)) = (0, 0, 2, 2) ∧
    point_in_triangle (1, 2) ((0, 0), (2, 0), (1, 2)) = true ∧
    (1, 2) ∉ drawPixels ((0, 0), (2, 0), (1, 2)) ∧
    (drawRows ((0, 0), (2, 0), (1, 2))).length = 2 := by
  with_unfolding_all decide

/-- **C8** (counterexample): drawing the triangle `(0,0), (3,0), (0,3)`,
whose bounding box extends past a 2×2 buffer, does not skip the
out-of-extent pixels: it hits an out-of-bounds index (a panic, modelled as
`none`).  The covered pixel `(2,1)` gets index `1·2 + 2 = 4`, one past the
end of the 4-element buffer. -/
theorem draw_out_of_bounds_panics :
    draw ((0, 0), (3, 0), (0, 3)) 7 (List.replicate 4 0) 2 = none ∧
    point_in_triangle (2, 1) ((0, 0), (3, 0), (0, 3)) = true ∧
    (2, 1) ∈ drawPixels ((0, 0), (3, 0), (0, 3)) ∧
    xy 2 1 2 = 4 := by
  with_unfolding_all decide

theorem writeRun_isSome_iff (width c : ℕ) :
    ∀ (ps : List (ℕ × ℕ)) (buffer : List ℕ),
      (writeRun buffer width c ps).isSome = true ↔
        ∀ p ∈ ps, xy p.1 p.2 width < buffer.length := by
  intro ps
  induction ps with
  | nil =>
    intro buffer
    simp [writeRun]
  | cons q ps ih =>
    intro buffer
    simp only [writeRun, writeAt]
    by_cases h : xy q.1 q.2 width < buffer.length
    · rw [if_pos h]
      simp only [List.mem_cons]
      rw [ih (buffer.set (xy q.1 q.2 width) c)]
      simp only [List.length_set]
      constructor
      · intro hall r hr
        rcases hr with rfl | hr
        · exact h
        · exact hall r hr
      · intro hall r hr
        exact hall r (Or.inr hr)
    · rw [if_neg h]
      simp only [Option.isSome_none, Bool.false_eq_true, false_iff]
      intro hall
      exact h (hall q (List.mem_cons_self q ps))

/-- **C8 amended**: `triangle::draw` performs no screen-bounds test at all:
it succeeds exactly when every covered pixel it scans has index
`y·W + x` smaller than the buffer length (so pixels with `x ≥ W` whose index
stays in range are written — wrapping into a later row — rather than
skipped), and it fails with an out-of-bounds panic (modelled as `none`), not
a silent skip, as soon as one scanned covered pixel indexes past the buffer. -/
theorem draw_isSome_iff (t : Tri) (c : ℕ) (buffer : List ℕ) (width : ℕ) :
    (draw t c buffer width).isSome = true ↔
      ∀ p ∈ drawPixels t, xy p.1 p.2 width < buffer.length :=
  writeRun_isSome_iff width c (drawPixels t) buffer

/-- `barycentric` returns `some` exactly on a non-degenerate `u_z` with all
three weights non-strictly nonnegative (shared helper). -/
theorem barycentric_isSome_aux (point : Vec2) (t0 t1 t2 : Vec3) :
    (barycentric point t0 t1 t2).isSome = true ↔
      (1 ≤ |(baryU point t0 t1 t2).z| ∧
       0 ≤ 1 - ((baryU point t0 t1 t2).x + (baryU point t0 t1 t2).y) /
         (baryU point t0 t1 t2).z ∧
       0 ≤ (baryU point t0 t1 t2).y / (baryU point t0 t1 t2).z ∧
       0 ≤ (baryU point t0 t1 t2).x / (baryU point t0 t1 t2).z) := by
  simp only [barycentric]
  split
  · rename_i h
    simp only [Option.isSome_none, Bool.false_eq_true, false_iff]
    rintro ⟨h1, -⟩
    linarith
  · rename_i h
    push_neg at h
    split
    · rename_i hneg
      simp only [Option.isSome_none, Bool.false_eq_true, false_iff]
      rintro ⟨-, h0, h1, h2⟩
      rcases hneg with hn | hn | hn <;> linarith
    · rename_i hneg
      push_neg at hneg
      simp only [Option.isSome_some, true_iff]
      exact ⟨h, hneg.1, hneg.2.1, hneg.2.2⟩

/-- The integer vertex as the `Vector3<f32>` that rendering code hands to
`barycentric` (its `z` component is never read by `barycentric`). -/
def toVec3 (v : ℕ × ℕ) : Vec3 :=
  ⟨(v.1 : ℚ), (v.2 : ℚ), 0⟩

theorem baryU_toVec3 (p : ℕ × ℕ) (t : Tri) :
    baryU ⟨(p.1 : ℚ), (p.2 : ℚ)⟩ (toVec3 t.1) (toVec3 t.2.1) (toVec3 t.2.2) =
      triU p t := rfl

/-- **C9**: the public `barycentric` returns `some` exactly when
`|u_z| ≥ 1` and each of the three computed weights is `≥ 0` (non-strict);
in particular a point lying exactly on an edge or vertex — one weight `0`,
the others nonnegative — yields `some`, unlike the strictly-positive
interior test `naive_point_in_triangle` of the coverage path, which rejects
such points. -/
theorem barycentric_some_iff :
    (∀ (point : Vec2) (t0 t1 t2 : Vec3),
      (barycentric point t0 t1 t2).isSome = true ↔
        (1 ≤ |(baryU point t0 t1 t2).z| ∧
         0 ≤ 1 - ((baryU point t0 t1 t2).x + (baryU point t0 t1 t2).y) /
           (baryU point t0 t1 t2).z ∧
         0 ≤ (baryU point t0 t1 t2).y / (baryU point t0 t1 t2).z ∧
         0 ≤ (baryU point t0 t1 t2).x / (baryU point t0 t1 t2).z)) ∧
    (∀ (t : Tri) (p : ℕ × ℕ),
      1 ≤ |(triU p t).z| →
      0 ≤ (weights p t).1 → 0 ≤ (weights p t).2.1 → 0 ≤ (weights p t).2.2 →
      ((weights p t).1 = 0 ∨ (weights p t).2.1 = 0 ∨ (weights p t).2.2 = 0) →
      (barycentric ⟨(p.1 : ℚ), (p.2 : ℚ)⟩ (toVec3 t.1) (toVec3 t.2.1)
          (toVec3 t.2.2)).isSome = true ∧
        naive_point_in_triangle p t = false) := by
  refine ⟨barycentric_isSome_aux, ?_⟩
  intro t p habs h0 h1 h2 hzero
  have hw0 : (weights p t).1 = 1 - ((triU p t).x + (triU p t).y) / (triU p t).z := rfl
  have hw1 : (weights p t).2.1 = (triU p t).y / (triU p t).z := rfl
  have hw2 : (weights p t).2.2 = (triU p t).x / (triU p t).z := rfl
  constructor
  · rw [barycentric_isSome_aux, baryU_toVec3]
    rw [hw0] at h0
    rw [hw1] at h1
    rw [hw2] at h2
    exact ⟨habs, h0, h1, h2⟩
  · have hnot : ¬ naive_point_in_triangle p t = true := by
      rw [naive_eq_true_iff]
      rintro ⟨-, g0, g1, g2⟩
      rcases hzero with he | he | he
      · rw [he] at g0
        exact lt_irrefl 0 g0
      · rw [he] at g1
        exact lt_irrefl 0 g1
      · rw [he] at g2
        exact lt_irrefl 0 g2
    exact Bool.not_eq_true _ |>.mp hnot

/-- Witness for `barycentric_some_iff`: the pixel `(1, 0)` lies exactly on
the bottom edge of the triangle `(0,0), (2,0), (1,2)` (weights
`(1/2, 1/2, 0)`): `barycentric` accepts it, `naive_point_in_triangle`
rejects it. -/
theorem barycentric_some_iff_witness :
    (barycentric ⟨((1 : ℕ) : ℚ), ((0 : ℕ) : ℚ)⟩ (toVec3 (0, 0)) (toVec3 (2, 0))
        (toVec3 (1, 2))).isSome = true ∧
      naive_point_in_triangle (1, 0) ((0, 0), (2, 0), (1, 2)) = false :=
  barycentric_some_iff.2 ((0, 0), (2, 0), (1, 2)) (1, 0)
    (by with_unfolding_all decide) (by with_unfolding_all decide)
    (by with_unfolding_all decide) (by with_unfolding_all decide)
    (by with_unfolding_all decide)

/-- Rust slice indexing of the three vertices `triangle[0]`, `triangle[1]`,
`triangle[2]`; `none` models the index-out-of-bounds panic on a short
slice. -/
def triOfSlice (l : List (ℕ × ℕ)) : Option Tri :=
  match l.get? 0, l.get? 1, l.get? 2 with
  | some a, some b, some c => some (a, b, c)
  | _, _, _ => none

/-- Slice indexing `tri[0]`, `tri[1]`, `tri[2]` of `barycentric`'s
`&[Vector3<f32>]` argument. -/
def vec3TripleOfSlice (l : List Vec3) : Option (Vec3 × Vec3 × Vec3) :=
  match l.get? 0, l.get? 1, l.get? 2 with
  | some a, some b, some c => some (a, b, c)
  | _, _, _ => none

/-- `triangle::bounding_box` on the full slice: iterator `min`/`max` with
`unwrap`; `none` models the documented panic on an empty slice. -/
def bounding_boxSlice (positions : List (ℕ × ℕ)) : Option (ℕ × ℕ × ℕ × ℕ) :=
  match (positions.map Prod.fst).minimum?, (positions.map Prod.snd).minimum?,
      (positions.map Prod.fst).maximum?, (positions.map Prod.snd).maximum? with
  | some mx, some my, some bx, some by2 => some (mx, my, bx, by2)
  | _, _, _, _ => none

/-- `triangle::barycentric` taking its triangle as a slice, as in the
source. -/
def barycentricSlice (point : Vec2) (tri : List Vec3) : Option (Option Vec3) :=
  (vec3TripleOfSlice tri).map (fun v => barycentric point v.1 v.2.1 v.2.2)

/-- `triangle::naive_point_in_triangle` taking its triangle as a slice. -/
def naive_point_in_triangleSlice (point : ℕ × ℕ) (triangle : List (ℕ × ℕ)) :
    Option Bool :=
  (triOfSlice triangle).map (naive_point_in_triangle point)

/-- `triangle::point_in_triangle` taking its triangle as a slice. -/
def point_in_triangleSlice (point : ℕ × ℕ) (triangle : List (ℕ × ℕ)) :
    Option Bool :=
  (triOfSlice triangle).map (point_in_triangle point)

/-- `TriangleIterator::new` taking its triangle as a slice. -/
def TriangleIterator.newSlice (triangle : List (ℕ × ℕ)) :
    Option TriangleIterator :=
  match bounding_boxSlice triangle, triOfSlice triangle with
  | some bb, some t =>
    some { bb_min_x := bb.1, bb_max_x := bb.2.2.1, bb_max_y := bb.2.2.2,
           triangle := t, y := bb.2.1 }
  | _, _ => none

/-- `triangle::draw` taking its triangle as a slice (bounding box over the
whole slice, coverage via the first three vertices, exactly as the source
indexes). -/
def drawSlice (triangle : List (ℕ × ℕ)) (c : ℕ) (buffer : List ℕ)
    (buffer_width : ℕ) : Option (Option (List ℕ)) :=
  match bounding_boxSlice triangle, triOfSlice triangle with
  | some bb, some t =>
    some (writeRun buffer buffer_width c
      (((List.range (bb.2.2.2 - bb.2.1)).map
        (fun k => coveredRow t bb.1 bb.2.2.1 (bb.2.1 + k))).flatten))
  | _, _ => none

/-- **C10**: on a triangle slice of at least three vertices, none of the
module's operations fails a slice access or an `unwrap`: every slice index
used is 0, 1 or 2 (all `< 3 ≤` length), and the `min`/`max` `unwrap`s in
`bounding_box` succeed because the slice is non-empty. -/
theorem slice_ops_no_panic (l : List (ℕ × ℕ)) (lv : List Vec3) (p : ℕ × ℕ)
    (pt : Vec2) (c w : ℕ) (buffer : List ℕ)
    (hl : 3 ≤ l.length) (hlv : 3 ≤ lv.length) :
    (bounding_boxSlice l).isSome = true ∧ (triOfSlice l).isSome = true ∧
    (barycentricSlice pt lv).isSome = true ∧
    (naive_point_in_triangleSlice p l).isSome = true ∧
    (point_in_triangleSlice p l).isSome = true ∧
    (TriangleIterator.newSlice l).isSome = true ∧
    (drawSlice l c buffer w).isSome = true := by
  match l, hl with
  | a :: b :: d :: rest, _ =>
    match lv, hlv with
    | x :: y :: z :: restv, _ =>
      refine ⟨?_, ?_, ?_, ?_, ?_, ?_, ?_⟩ <;>
        simp [bounding_boxSlice, triOfSlice, vec3TripleOfSlice,
          barycentricSlice, naive_point_in_triangleSlice,
          point_in_triangleSlice, TriangleIterator.newSlice, drawSlice,
          List.minimum?, List.maximum?]

/-- Witness for `slice_ops_no_panic` at the 3-vertex slice
`[(0,0), (1,0), (0,1)]`. -/
theorem slice_ops_no_panic_witness :
    (bounding_boxSlice [(0, 0), (1, 0), (0, 1)]).isSome = true ∧
    (triOfSlice [(0, 0), (1, 0), (0, 1)]).isSome = true ∧
    (barycentricSlice ⟨0, 0⟩ [⟨0, 0, 0⟩, ⟨1, 0, 0⟩, ⟨0, 1, 0⟩]).isSome = true ∧
    (naive_point_in_triangleSlice (0, 0) [(0, 0), (1, 0), (0, 1)]).isSome = true ∧
    (point_in_triangleSlice (0, 0) [(0, 0), (1, 0), (0, 1)]).isSome = true ∧
    (TriangleIterator.newSlice [(0, 0), (1, 0), (0, 1)]).isSome = true ∧
    (drawSlice [(0, 0), (1, 0), (0, 1)] 0 [0] 1).isSome = true :=
  slice_ops_no_panic [(0, 0), (1, 0), (0, 1)] [⟨0, 0, 0⟩, ⟨1, 0, 0⟩, ⟨0, 1, 0⟩]
    (0, 0) ⟨0, 0⟩ 0 1 [0] (by decide) (by decide)
